import Mathlib

/-
Verification of the shift-classification and report-assembly pipeline of
`src/report_scripts.py` (a daily idle-performance reporting script).

The Python source is shallowly embedded below:
  * rows of the activity table become the structure `Record`
    (timestamp split into calendar day and hour, raw shift code,
    driver, idle time as a rational number);
  * pandas column operations become list functions;
  * Python string operations are modelled on `List Char`
    (`splitOnChar` for `str.split(c)`, `containsSeq` for `needle in hay`,
    `lexLe` for code-point-lexicographic string comparison,
    `pyIntOpt` for `int(...)` / `pd.to_numeric` on the integer-shaped
    shift codes that occur in this pipeline);
  * the single `try/except` around the vectorised overnight
    reclassification (lines 147-153) becomes the branch in `classifyRun`:
    `pd.to_numeric` raises as soon as any cleaned code fails to parse,
    in which case every record keeps its plain cleaned-code label;
  * `requests.post` is not modelled; `send_to_slack` only records which
    branch the function takes (`TypeError` on a `None` URL, skip on the
    placeholder, an attempted POST otherwise).
-/

namespace Report

attribute [local semireducible] Rat.add Rat.sub Rat.mul Rat.inv

/-- Configuration constant `LATE_SHIFT_START_HOUR` (line 25). -/
def LATE_SHIFT_START_HOUR : Int := 20

/-- Configuration constant `BENCHMARK_IDLE_TIME = 0.68` (line 27). -/
def BENCHMARK_IDLE_TIME : ℚ := 68 / 100

/-- Python `str.split(sep)` for a single-character separator, on the
character list of the string.  `"" .split(sep) = [""]`. -/
def splitOnChar (sep : Char) : List Char → List (List Char)
  | [] => [[]]
  | c :: cs =>
    if c = sep then
      [] :: splitOnChar sep cs
    else
      match splitOnChar sep cs with
      | [] => [[c]]
      | h :: t => (c :: h) :: t

/-- Does `hay` start with the block `needle`? (helper for `containsSeq`). -/
def leadBlock : List Char → List Char → Bool
  | [], _ => true
  | _ :: _, [] => false
  | a :: as, b :: bs => a == b && leadBlock as bs

/-- Does `needle` occur contiguously inside `hay`?  This is Python's
`needle in hay` membership test for (nonempty) strings. -/
def containsSeq (needle : List Char) : List Char → Bool
  | [] => needle.isEmpty
  | h :: t => leadBlock needle (h :: t) || containsSeq needle t

/-- Python `needle in hay` on strings. -/
def pyContains (needle hay : String) : Bool := containsSeq needle.data hay.data

/-- Accumulating decimal-digit parser (helper for `pyIntOpt`). -/
def digitsValAux : Nat → List Char → Option Nat
  | acc, [] => some acc
  | acc, c :: cs => if c.isDigit then digitsValAux (10 * acc + (c.toNat - 48)) cs else none

/-- Python `int(s)` (and `pd.to_numeric(s)`) on the integer-shaped strings
that occur as shift codes: an optional minus sign followed by decimal
digits; everything else fails (raises `ValueError`, modelled as `none`). -/
def pyIntBody : List Char → Option Int
  | [] => none
  | c :: cs =>
    if c = '-' then
      match cs with
      | [] => none
      | _ :: _ => (digitsValAux 0 cs).map (fun (v : Nat) => -(v : Int))
    else
      (digitsValAux 0 (c :: cs)).map (fun (v : Nat) => (v : Int))

/-- Python `int(s)` / `pd.to_numeric(s)` on the string `s`. -/
def pyIntOpt (s : String) : Option Int := pyIntBody s.data

/-- Code-point-lexicographic `≤` on character lists: Python's string
comparison order. -/
def lexLe : List Char → List Char → Bool
  | [], _ => true
  | _ :: _, [] => false
  | a :: as, b :: bs => if a.toNat = b.toNat then lexLe as bs else decide (a.toNat < b.toNat)

/-- One row of the activity table, after the date column has been parsed
(line 120): calendar day and hour of `Start Time (Local)`, the raw
`Shift Code`, the `Driver`, and the `Idle Time`. -/
structure Record where
  day : Int
  hour : Nat
  shiftCode : String
  driver : String
  idleTime : ℚ
deriving DecidableEq

/-- Line 125: `df['Cleaned Shift'] = df[SHIFT_COLUMN].str.split('-').str[-1]`,
the substring after the last dash. -/
def cleanShift (s : String) : String :=
  String.mk ((splitOnChar '-' s.data).getLastD [])

/-- Line 133: records whose timestamp falls on the target calendar day. -/
def matchedRecords (allRecords : List Record) (targetDay : Int) : List Record :=
  allRecords.filter (fun r => r.day = targetDay)

/-- Lines 148-149, per row: hour before 5 AM and cleaned code numerically
`≥ LATE_SHIFT_START_HOUR * 100`. -/
def overnightCondition (r : Record) : Bool :=
  decide (r.hour < 5) &&
    (match pyIntOpt (cleanShift r.shiftCode) with
     | some n => decide (LATE_SHIFT_START_HOUR * 100 ≤ n)
     | none => false)

/-- Line 150, per row: the reporting shift when the vectorised parse of the
whole `Cleaned Shift` column succeeded. -/
def reportingShiftOf (r : Record) : String :=
  if overnightCondition r then cleanShift r.shiftCode ++ " (Overnight)"
  else cleanShift r.shiftCode

/-- Lines 145-153.  `Reporting Shift` starts as the cleaned code
(line 145); the overnight reclassification (lines 148-150) is a single
vectorised expression inside one `try`: `pd.to_numeric` on the whole
`Cleaned Shift` column raises as soon as any one value fails to parse, and
the `except` (lines 151-153) then leaves every record at its plain
cleaned-code label. -/
def classifyRun (rs : List Record) : List (Record × String) :=
  if rs.all (fun r => (pyIntOpt (cleanShift r.shiftCode)).isSome) then
    rs.map (fun r => (r, reportingShiftOf r))
  else
    rs.map (fun r => (r, cleanShift r.shiftCode))

/-- Lines 157-161: sort key prefixing "(Overnight)" labels with `"0_"` and
all other labels with `"1_"`. -/
def shift_sort_key (s : String) : String :=
  if pyContains "(Overnight)" s then "0_" ++ s else "1_" ++ s

/-- `first-occurrence` deduplication with an accumulator of already seen
values (helper for `uniqueFirst`). -/
def uniqueFirstAux {α : Type _} [DecidableEq α] : List α → List α → List α
  | _, [] => []
  | seen, a :: l =>
    if a ∈ seen then uniqueFirstAux seen l
    else a :: uniqueFirstAux (a :: seen) l

/-- pandas `Series.unique()`: distinct values in order of first
appearance (line 155). -/
def uniqueFirst {α : Type _} [DecidableEq α] (l : List α) : List α :=
  uniqueFirstAux [] l

/-- Python `sorted(..., key=shift_sort_key)` comparison relation. -/
def keyLe (a b : String) : Prop :=
  lexLe (shift_sort_key a).data (shift_sort_key b).data = true

instance : DecidableRel keyLe := fun a b => by unfold keyLe; infer_instance

/-- Plain Python string `≤` (pandas sorts `groupby` keys with it). -/
def strLe (a b : String) : Prop := lexLe a.data b.data = true

instance : DecidableRel strLe := fun a b => by unfold strLe; infer_instance

/-- Lines 155 and 163: the distinct reporting-shift labels of the day, in
`shift_sort_key` order. -/
def sortedReportShifts (classified : List (Record × String)) : List String :=
  List.insertionSort keyLe (uniqueFirst (classified.map Prod.snd))

/-- Lines 32-41: `get_impact_emoji`. -/
def get_impact_emoji (idle_impact : ℚ) : String :=
  if 20 ≤ idle_impact then "🔴"
  else if 10 ≤ idle_impact then "🟠"
  else if 0 ≤ idle_impact then "🟡"
  else "🟢"

/-- Lines 43-53: `get_site_average_emoji`. -/
def get_site_average_emoji (site_average : ℚ) : String :=
  if 135 / 100 < site_average then "🔴"
  else if 1 < site_average then "🟠"
  else if 68 / 100 ≤ site_average then "🟡"
  else "🟢"

/-- The status names attached to the thresholds of `get_impact_emoji` in
the source comments (lines 34-41). -/
def impactStatus (idle_impact : ℚ) : String :=
  if 20 ≤ idle_impact then "Very Bad"
  else if 10 ≤ idle_impact then "Bad"
  else if 0 ≤ idle_impact then "Fine"
  else "Great"

/-- The status names attached to the thresholds of
`get_site_average_emoji` in the source comments (lines 46-53). -/
def siteAverageStatus (site_average : ℚ) : String :=
  if 135 / 100 < site_average then "Very Bad"
  else if 1 < site_average then "Bad"
  else if 68 / 100 ≤ site_average then "Fine"
  else "Great"

/-- The fixed status-to-symbol assignment shared by both classifications
(red / orange / yellow / green). -/
def statusSymbol (status : String) : String :=
  if status = "Very Bad" then "🔴"
  else if status = "Bad" then "🟠"
  else if status = "Fine" then "🟡"
  else "🟢"

/-- One row of a per-shift summary table (lines 207-217): the displayed
columns plus the internal `Move_Count` column. -/
structure DriverRow where
  status : String
  driver : String
  avgIdleTime : ℚ
  moveCount : Nat
  pctMoves : ℚ
  idleImpact : ℚ
deriving DecidableEq

/-- `sort_values('Idle Impact')` comparison relation (line 215). -/
def rowLe (a b : DriverRow) : Prop := a.idleImpact ≤ b.idleImpact

instance : DecidableRel rowLe := fun a b => by unfold rowLe; infer_instance

/-- Line 206: the records of one reporting shift. -/
def shiftRecords (classified : List (Record × String)) (shiftLabel : String) : List Record :=
  (classified.filter (fun p => p.2 = shiftLabel)).map Prod.fst

/-- Lines 207-214: the aggregated row of one driver within one shift:
mean idle time, move count, share of the day's total moves, idle impact,
and the status symbol derived from the impact. -/
def driverRowOf (recs : List Record) (total : Nat) (d : String) : DriverRow :=
  let drecs := recs.filter (fun r => r.driver = d)
  let cnt := drecs.length
  let avg := (drecs.map Record.idleTime).sum / (cnt : ℚ)
  let impact := (avg - BENCHMARK_IDLE_TIME) * (cnt : ℚ)
  { status := get_impact_emoji impact
    driver := d
    avgIdleTime := avg
    moveCount := cnt
    pctMoves := (cnt : ℚ) / (total : ℚ)
    idleImpact := impact }

/-- Lines 206-217: the summary table of one reporting shift - one row per
distinct driver (pandas `groupby` sorts the driver keys), sorted ascending
by idle impact. -/
def shiftRows (classified : List (Record × String)) (total : Nat)
    (shiftLabel : String) : List DriverRow :=
  let recs := shiftRecords classified shiftLabel
  let drivers := List.insertionSort strLe (uniqueFirst (recs.map Record.driver))
  List.insertionSort rowLe (drivers.map (driverRowOf recs total))

/-- The report block of one shift (lines 222-233): either the rendered
driver table, or the `"No employee data to analyze for this shift."` line
when the summary frame is empty (line 229). -/
inductive ShiftFragment where
  | noEmployeeData (shiftLabel : String)
  | table (shiftLabel : String) (rows : List DriverRow)
deriving DecidableEq

/-- Lines 228-233: the branch on `shift_summary.empty`. -/
def shiftFragment (classified : List (Record × String)) (total : Nat)
    (shiftLabel : String) : ShiftFragment :=
  let rows := shiftRows classified total shiftLabel
  if rows.isEmpty then ShiftFragment.noEmployeeData shiftLabel
  else ShiftFragment.table shiftLabel rows

/-- Line 239: `shift_name.split(' ')[0]`, the label up to the first space. -/
def firstToken (s : String) : String :=
  String.mk ((splitOnChar ' ' s.data).headD [])

/-- Lines 239-244, per shift label: `int(label.split(' ')[0]) < 600`,
with a parse failure counting as `false` (the `except ValueError: continue`). -/
def earlyShiftB (s : String) : Bool :=
  match pyIntOpt (firstToken s) with
  | some v => decide (v < 600)
  | none => false

/-- The loop of lines 237-244 with its running index and accumulator:
`split_index` is overwritten with the current index whenever the label's
numeric prefix is below 600. -/
def splitIndexAux (i : Nat) (acc : Int) : List String → Int
  | [] => acc
  | s :: rest => splitIndexAux (i + 1) (if earlyShiftB s then (i : Int) else acc) rest

/-- Lines 237-244: the final `split_index` (`-1` when no label qualifies). -/
def splitIndexOf (sortedShifts : List String) : Int :=
  splitIndexAux 0 (-1) sortedShifts

/-- Lines 246-258: one message (summary text followed by all fragments)
when `split_index` is `-1` or points at the last fragment, otherwise two
messages split after `split_index`, the second opened by the continuation
header. -/
def buildMessages (summaryText : String) (fragments : List String)
    (sortedShifts : List String) : List String :=
  let si := splitIndexOf sortedShifts
  if si = -1 ∨ si = (fragments.length : Int) - 1 then
    [summaryText ++ String.join fragments]
  else
    [summaryText ++ String.join (fragments.take (si + 1).toNat),
     "📊 *Daily Idling Time Report (continued)*\n" ++
       String.join (fragments.drop (si + 1).toNat)]

/-- The observable outcome of one run of `analyze_day_performance`:
either the early-return "no data" notice (lines 136-140), or the report
data for the day (site average, total moves, the sorted shift labels and
one fragment per shift). -/
inductive RunOutput where
  | noData (msg : String)
  | report (siteAverage : ℚ) (totalDailyMoves : Nat)
      (sortedShifts : List String) (fragments : List ShiftFragment)
deriving DecidableEq

/-- Lines 128-234: the analysis pipeline on the already-loaded table
(CSV reading, printing and the rendering of text layout are omitted; the
report's data content is kept). -/
def analyze_day_performance (allRecords : List Record) (targetDay : Int)
    (targetDayStr : String) : RunOutput :=
  let act := matchedRecords allRecords targetDay
  if act.isEmpty then
    RunOutput.noData ("No data found for the date: " ++ targetDayStr)
  else
    let total := act.length
    let site := (act.map Record.idleTime).sum / (total : ℚ)
    let classified := classifyRun act
    let shifts := sortedReportShifts classified
    RunOutput.report site total shifts (shifts.map (shiftFragment classified total))

/-- What `send_to_slack` (lines 265-279) does before any network I/O,
as a function of `SLACK_WEBHOOK_URL = os.environ.get("WEBHOOK_URL")`
(line 16).  When the variable is absent the URL is `None` and the
membership test `"YOUR_NEW_SLACK_APP_WEBHOOK_URL_HERE" in None` on
line 267 raises `TypeError`; when the URL contains the placeholder the
send is skipped with a warning; otherwise a POST is attempted. -/
inductive SendResult where
  | typeError
  | skippedPlaceholder
  | attemptedPost
deriving DecidableEq

/-- Lines 265-273: the branch taken by `send_to_slack`. -/
def send_to_slack (url : Option String) : SendResult :=
  match url with
  | none => SendResult.typeError
  | some u =>
    if pyContains "YOUR_NEW_SLACK_APP_WEBHOOK_URL_HERE" u then
      SendResult.skippedPlaceholder
    else
      SendResult.attemptedPost

/-- Specification helper for the splitter loop: the index of the last label
in the list whose numeric prefix is below 600, if any. -/
def lastEarlyIdx : List String → Option Nat
  | [] => none
  | s :: rest =>
    match lastEarlyIdx rest with
    | some j => some (j + 1)
    | none => if earlyShiftB s then some 0 else none

/-- A two-record fixture day (one shift "0600", drivers A and B, idle times
0.5 and 1.5) used by the witnesses below. -/
def fixtureDay : List Record :=
  [⟨0, 10, "0600", "A", 1 / 2⟩, ⟨0, 11, "0600", "B", 3 / 2⟩]

/-- Driver A's aggregated row in the fixture day. -/
def fixtureRowA : DriverRow :=
  { status := "🟢", driver := "A", avgIdleTime := 1 / 2, moveCount := 1,
    pctMoves := 1 / 2, idleImpact := (1 / 2 - 68 / 100) * 1 }

/-- Driver B's aggregated row in the fixture day. -/
def fixtureRowB : DriverRow :=
  { status := "🟡", driver := "B", avgIdleTime := 3 / 2, moveCount := 1,
    pctMoves := 1 / 2, idleImpact := (3 / 2 - 68 / 100) * 1 }

/-! ### Basic lemmas about the embedded helpers -/

theorem overnightCondition_iff (r : Record) :
    overnightCondition r = true ↔
      r.hour < 5 ∧ ∃ n, pyIntOpt (cleanShift r.shiftCode) = some n ∧
        LATE_SHIFT_START_HOUR * 100 ≤ n := by
  unfold overnightCondition
  cases h : pyIntOpt (cleanShift r.shiftCode) <;> simp [h]

theorem ne_append_overnight (s : String) : s ≠ s ++ " (Overnight)" := by
  intro h
  have h2 : s.data.length = (s ++ " (Overnight)").data.length := by rw [← h]
  rw [String.data_append, List.length_append] at h2
  have h3 : (" (Overnight)" : String).data.length = 12 := by decide
  omega

theorem mem_classifyRun_of_all (rs : List Record) (r : Record) (lbl : String)
    (hall : ∀ s ∈ rs, (pyIntOpt (cleanShift s.shiftCode)).isSome = true)
    (hmem : (r, lbl) ∈ classifyRun rs) : lbl = reportingShiftOf r := by
  unfold classifyRun at hmem
  rw [if_pos (List.all_eq_true.mpr hall)] at hmem
  rcases List.mem_map.mp hmem with ⟨s, _, heq⟩
  rcases Prod.mk.injEq .. ▸ heq with ⟨hs, hlbl⟩
  rw [← hlbl, hs]

/-! ### Claim theorems, first batch -/

/-- C5: the two status classifications match their threshold tables exactly
at the boundaries - idle impact 20.0 maps to "Very Bad", 19.999 to "Bad",
0.0 to "Fine", -0.01 to "Great"; site average 0.68 maps to "Fine", 0.679999
to "Great", 1.35 to "Bad", 1.350001 to "Very Bad" - and each status maps to
one fixed symbol consistently across both classifications. -/
theorem C5_status_boundaries :
    impactStatus 20 = "Very Bad" ∧ impactStatus (19999 / 1000) = "Bad" ∧
    impactStatus 0 = "Fine" ∧ impactStatus (-1 / 100) = "Great" ∧
    siteAverageStatus (68 / 100) = "Fine" ∧
    siteAverageStatus (679999 / 1000000) = "Great" ∧
    siteAverageStatus (135 / 100) = "Bad" ∧
    siteAverageStatus (1350001 / 1000000) = "Very Bad" ∧
    (∀ x : ℚ, get_impact_emoji x = statusSymbol (impactStatus x)) ∧
    (∀ x : ℚ, get_site_average_emoji x = statusSymbol (siteAverageStatus x)) := by
  refine ⟨by decide, by decide, by decide, by decide, by decide, by decide,
    by decide, by decide, ?_, ?_⟩
  · intro x
    unfold get_impact_emoji impactStatus
    split_ifs <;> decide
  · intro x
    unfold get_site_average_emoji siteAverageStatus
    split_ifs <;> decide

/-- C4 (code bug): `send_to_slack` skips with a warning only on the
placeholder URL; when the environment variable is absent the URL is `None`
and the membership test of line 267 raises `TypeError` - the run crashes
instead of skipping. -/
theorem C4_send_branches :
    send_to_slack none = SendResult.typeError ∧
    send_to_slack (some "YOUR_NEW_SLACK_APP_WEBHOOK_URL_HERE") =
      SendResult.skippedPlaceholder ∧
    send_to_slack none ≠ SendResult.skippedPlaceholder := by decide

/-- C9: when no record's timestamp falls on the target calendar day the run
short-circuits without error, producing the "no data" notice for that date
instead of a report. -/
theorem C9_no_data (allRecords : List Record) (targetDay : Int)
    (targetDayStr : String) (h : matchedRecords allRecords targetDay = []) :
    analyze_day_performance allRecords targetDay targetDayStr =
      RunOutput.noData ("No data found for the date: " ++ targetDayStr) := by
  unfold analyze_day_performance
  simp [h]

/-- C9 witness: a one-record table whose record lies on day 0, queried for
day 1. -/
theorem C9_no_data_witness :
    analyze_day_performance [⟨0, 10, "0600", "A", 1⟩] 1 "2026-10-10" =
      RunOutput.noData ("No data found for the date: " ++ "2026-10-10") :=
  C9_no_data _ _ _ (by decide)

/-- C1 counterexample: a run holding records ("2200", hour 2) and
("ABC", hour 10).  The first record satisfies the claim's overnight
condition (hour < 5 and code 2200 >= LATE_SHIFT_START_HOUR * 100), yet the
code labels it "2200" and not "2200 (Overnight)": the vectorised
`pd.to_numeric` of lines 148-149 raises on "ABC" and the `except` skips the
overnight rule for every record of the run, so the claimed per-record
"exactly when" fails. -/
theorem C1_counterexample :
    overnightCondition ⟨0, 2, "2200", "A", 1⟩ = true ∧
    (classifyRun [⟨0, 2, "2200", "A", 1⟩, ⟨0, 10, "ABC", "B", 1⟩]).map Prod.snd
      = ["2200", "ABC"] ∧
    ("2200" : String) ≠ "2200 (Overnight)" := by decide

/-- C1 amended: in a run where EVERY matched record's cleaned shift code
parses as an integer, each record's reporting shift is the cleaned shift
code (substring after the last dash), suffixed " (Overnight)" exactly when
the record's hour is strictly below 5 and the parsed code is at least
`LATE_SHIFT_START_HOUR * 100`. -/
theorem C1_overnight_rule (rs : List Record) (r : Record) (lbl : String)
    (hall : ∀ s ∈ rs, (pyIntOpt (cleanShift s.shiftCode)).isSome = true)
    (hmem : (r, lbl) ∈ classifyRun rs) :
    (lbl = cleanShift r.shiftCode ++ " (Overnight)" ∨ lbl = cleanShift r.shiftCode) ∧
    (lbl = cleanShift r.shiftCode ++ " (Overnight)" ↔
      r.hour < 5 ∧ ∃ n, pyIntOpt (cleanShift r.shiftCode) = some n ∧
        LATE_SHIFT_START_HOUR * 100 ≤ n) := by
  have hl := mem_classifyRun_of_all rs r lbl hall hmem
  subst hl
  unfold reportingShiftOf
  by_cases hoc : overnightCondition r = true
  · rw [if_pos hoc]
    exact ⟨Or.inl rfl, by simp [(overnightCondition_iff r).mp hoc]⟩
  · rw [if_neg hoc]
    refine ⟨Or.inr rfl, ?_, ?_⟩
    · intro h
      exact absurd h (ne_append_overnight _)
    · intro hcond
      exact absurd ((overnightCondition_iff r).mpr hcond) hoc

/-- C1 witness: in an all-numeric run, code "SITE-2200" at hour 2 is
labelled "2200 (Overnight)" while code "2200" at hour 14 keeps "2200". -/
theorem C1_overnight_rule_witness :
    ("2200 (Overnight)" = cleanShift (Record.mk 0 2 "SITE-2200" "A" 1).shiftCode ++ " (Overnight)" ∨
      "2200 (Overnight)" = cleanShift (Record.mk 0 2 "SITE-2200" "A" 1).shiftCode) ∧
    ("2200" = cleanShift (Record.mk 0 14 "2200" "B" 1).shiftCode ++ " (Overnight)" ∨
      "2200" = cleanShift (Record.mk 0 14 "2200" "B" 1).shiftCode) :=
  ⟨(C1_overnight_rule [⟨0, 2, "SITE-2200", "A", 1⟩, ⟨0, 14, "2200", "B", 1⟩]
      ⟨0, 2, "SITE-2200", "A", 1⟩ "2200 (Overnight)" (by decide) (by decide)).1,
   (C1_overnight_rule [⟨0, 2, "SITE-2200", "A", 1⟩, ⟨0, 14, "2200", "B", 1⟩]
      ⟨0, 14, "2200", "B", 1⟩ "2200" (by decide) (by decide)).1⟩

/-- C2 counterexample: records ("SITE-2030", hour 1) and ("X9Z", hour 3).
The claim says the overnight rule is skipped only for the non-numeric
record and still applied to the numeric one in the same run; in the code
the whole vectorised reclassification is skipped, and the numeric record is
labelled "2030" instead of "2030 (Overnight)". -/
theorem C2_counterexample :
    overnightCondition ⟨0, 1, "SITE-2030", "C", 1⟩ = true ∧
    (classifyRun [⟨0, 1, "SITE-2030", "C", 1⟩, ⟨0, 3, "X9Z", "D", 1⟩]).map Prod.snd
      = ["2030", "X9Z"] ∧
    ("2030" : String) ≠ "2030 (Overnight)" := by decide

/-- C2 amended: when some record's cleaned shift code cannot be parsed as an
integer, the overnight rule is skipped for EVERY record of the run - all
records keep the plain cleaned-code (non-overnight) label - and the run
continues without failing. -/
theorem C2_batch_skip (rs : List Record)
    (h : ∃ s ∈ rs, pyIntOpt (cleanShift s.shiftCode) = none) :
    (classifyRun rs).map Prod.snd = rs.map (fun r => cleanShift r.shiftCode) := by
  unfold classifyRun
  rw [if_neg]
  · rw [List.map_map]
    rfl
  · intro hall
    rcases h with ⟨s, hs, hnone⟩
    have := List.all_eq_true.mp hall s hs
    rw [hnone] at this
    simp at this

/-! ### The splitter loop (lines 237-258) -/

theorem splitIndexAux_eq (l : List String) : ∀ (i : Nat) (acc : Int),
    splitIndexAux i acc l =
      (match lastEarlyIdx l with
       | some j => ((i + j : Nat) : Int)
       | none => acc) := by
  induction l with
  | nil => intro i acc; rfl
  | cons s rest ih =>
    intro i acc
    rw [show splitIndexAux i acc (s :: rest)
          = splitIndexAux (i + 1) (if earlyShiftB s then (i : Int) else acc) rest
        from rfl]
    rw [ih]
    rw [show lastEarlyIdx (s :: rest)
          = (match lastEarlyIdx rest with
             | some j => some (j + 1)
             | none => if earlyShiftB s then some 0 else none)
        from rfl]
    cases h : lastEarlyIdx rest with
    | some j =>
      change ((i + 1 + j : Nat) : Int) = ((i + (j + 1) : Nat) : Int)
      omega
    | none =>
      cases he : earlyShiftB s with
      | true => change (i : Int) = ((i + 0 : Nat) : Int); omega
      | false => rfl

theorem lastEarlyIdx_none_iff (l : List String) :
    lastEarlyIdx l = none ↔ ∀ s ∈ l, earlyShiftB s = false := by
  induction l with
  | nil => simp [lastEarlyIdx]
  | cons a t ih =>
    rw [show lastEarlyIdx (a :: t)
          = (match lastEarlyIdx t with
             | some j => some (j + 1)
             | none => if earlyShiftB a then some 0 else none)
        from rfl]
    cases h : lastEarlyIdx t with
    | some j =>
      change some (j + 1) = none ↔ _
      constructor
      · intro hh; exact absurd hh (by simp)
      · intro hall
        have hnone : lastEarlyIdx t = none :=
          ih.mpr (fun s hs => hall s (List.mem_cons_of_mem a hs))
        rw [h] at hnone
        exact absurd hnone (by simp)
    | none =>
      have ht := ih.mp h
      cases he : earlyShiftB a with
      | true =>
        change some 0 = none ↔ _
        constructor
        · intro hh; exact absurd hh (by simp)
        · intro hall
          have := hall a (List.mem_cons_self a t)
          rw [he] at this
          exact absurd this (by simp)
      | false =>
        change (none : Option Nat) = none ↔ _
        constructor
        · intro _ s hs
          rcases List.mem_cons.mp hs with hsa | hst
          · rw [hsa]; exact he
          · exact ht s hst
        · intro _; rfl

theorem lastEarlyIdx_some_iff (l : List String) : ∀ j : Nat,
    lastEarlyIdx l = some j ↔
      ((∃ s, l[j]? = some s ∧ earlyShiftB s = true) ∧
        ∀ s ∈ l.drop (j + 1), earlyShiftB s = false) := by
  induction l with
  | nil => intro j; simp [lastEarlyIdx]
  | cons a t ih =>
    intro j
    rw [show lastEarlyIdx (a :: t)
          = (match lastEarlyIdx t with
             | some j => some (j + 1)
             | none => if earlyShiftB a then some 0 else none)
        from rfl]
    cases h : lastEarlyIdx t with
    | some j' =>
      have ht := (ih j').mp h
      cases j with
      | zero =>
        change some (j' + 1) = some 0 ↔ _
        simp only [List.getElem?_cons_zero, List.drop_succ_cons, List.drop_zero]
        constructor
        · intro hh; exact absurd hh (by simp)
        · rintro ⟨-, hall⟩
          rcases ht.1 with ⟨s, hs, hse⟩
          have := hall s (List.getElem?_mem hs)
          rw [hse] at this
          exact absurd this (by simp)
      | succ j'' =>
        change some (j' + 1) = some (j'' + 1) ↔ _
        rw [List.getElem?_cons_succ, List.drop_succ_cons, ← ih j'', h]
        constructor
        · intro hh
          have hj : j' = j'' := by injection hh with hh2; omega
          rw [hj]
        · intro hh
          have hj : j'' = j' := by injection hh with hh2; omega
          rw [hj]
    | none =>
      have ht := (lastEarlyIdx_none_iff t).mp h
      cases he : earlyShiftB a with
      | true =>
        cases j with
        | zero =>
          change some 0 = some 0 ↔ _
          simp only [List.getElem?_cons_zero, List.drop_succ_cons, List.drop_zero]
          constructor
          · intro _; exact ⟨⟨a, rfl, he⟩, ht⟩
          · intro _; trivial
        | succ j'' =>
          change some 0 = some (j'' + 1) ↔ _
          simp only [List.getElem?_cons_succ, List.drop_succ_cons]
          constructor
          · intro hh; exact absurd hh (by simp)
          · rintro ⟨⟨s, hs, hse⟩, -⟩
            have := ht s (List.getElem?_mem hs)
            rw [hse] at this
            exact absurd this (by simp)
      | false =>
        cases j with
        | zero =>
          change (none : Option Nat) = some 0 ↔ _
          simp only [List.getElem?_cons_zero, List.drop_succ_cons, List.drop_zero]
          constructor
          · intro hh; exact absurd hh (by simp)
          · rintro ⟨⟨s, hs, hse⟩, -⟩
            have hsa : s = a := by injection hs with hh; exact hh.symm
            rw [hsa, he] at hse
            exact absurd hse (by simp)
        | succ j'' =>
          change (none : Option Nat) = some (j'' + 1) ↔ _
          simp only [List.getElem?_cons_succ, List.drop_succ_cons]
          constructor
          · intro hh; exact absurd hh (by simp)
          · rintro ⟨⟨s, hs, hse⟩, -⟩
            have := ht s (List.getElem?_mem hs)
            rw [hse] at this
            exact absurd this (by simp)

theorem splitIndexOf_of_some (shifts : List String) (j : Nat)
    (h : lastEarlyIdx shifts = some j) : splitIndexOf shifts = (j : Int) := by
  unfold splitIndexOf
  rw [splitIndexAux_eq shifts 0 (-1), h]
  change ((0 + j : Nat) : Int) = (j : Int)
  omega

theorem splitIndexOf_of_none (shifts : List String)
    (h : lastEarlyIdx shifts = none) : splitIndexOf shifts = -1 := by
  unfold splitIndexOf
  rw [splitIndexAux_eq shifts 0 (-1), h]

theorem digitsValAux_isDigit (l : List Char) : ∀ (acc v : Nat),
    digitsValAux acc l = some v → ∀ c ∈ l, c.isDigit = true := by
  induction l with
  | nil => intro acc v _ c hc; exact absurd hc (List.not_mem_nil c)
  | cons d cs ih =>
    intro acc v hv c hc
    unfold digitsValAux at hv
    by_cases hd : d.isDigit = true
    · rw [if_pos hd] at hv
      rcases List.mem_cons.mp hc with hcd | hcs
      · rw [hcd]; exact hd
      · exact ih _ v hv c hcs
    · rw [if_neg hd] at hv; exact absurd hv (by simp)

theorem pyIntOpt_no_space (s : String) (n : Int) (h : pyIntOpt s = some n) :
    ' ' ∉ s.data := by
  intro hsp
  unfold pyIntOpt at h
  generalize hds : s.data = l at h hsp
  cases l with
  | nil => exact absurd hsp (List.not_mem_nil _)
  | cons c0 cs0 =>
    by_cases hc0 : c0 = '-'
    · subst hc0
      cases cs0 with
      | nil =>
        have h3 : (none : Option Int) = some n := h
        exact absurd h3 (by simp)
      | cons c1 cs1 =>
        have h3 : (digitsValAux 0 (c1 :: cs1)).map (fun (v : Nat) => -(v : Int))
            = some n := h
        rcases Option.map_eq_some'.mp h3 with ⟨v, hv, -⟩
        have hdig := digitsValAux_isDigit (c1 :: cs1) 0 v hv
        rcases List.mem_cons.mp hsp with hh | hh
        · exact absurd hh (by decide)
        · exact absurd (hdig ' ' hh) (by decide)
    · simp only [pyIntBody] at h
      rw [if_neg hc0] at h
      rcases Option.map_eq_some'.mp h with ⟨v, hv, -⟩
      have hdig := digitsValAux_isDigit (c0 :: cs0) 0 v hv
      exact absurd (hdig ' ' hsp) (by decide)

theorem splitOnChar_ne_nil (sep : Char) (l : List Char) :
    splitOnChar sep l ≠ [] := by
  cases l with
  | nil => simp [splitOnChar]
  | cons c cs =>
    unfold splitOnChar
    by_cases h : c = sep
    · rw [if_pos h]; simp
    · rw [if_neg h]
      cases splitOnChar sep cs <;> simp

theorem splitOnChar_head_append (sep : Char) (ys : List Char) :
    ∀ xs : List Char, sep ∉ xs →
      (splitOnChar sep (xs ++ sep :: ys)).headD [] = xs := by
  intro xs
  induction xs with
  | nil => intro _; simp [splitOnChar]
  | cons c xs' ih =>
    intro h
    have hc : ¬ c = sep := fun hh => h (hh ▸ List.mem_cons_self c xs')
    have h' : sep ∉ xs' := fun hh => h (List.mem_cons_of_mem c hh)
    show (splitOnChar sep (c :: (xs' ++ sep :: ys))).headD [] = c :: xs'
    unfold splitOnChar
    rw [if_neg hc]
    rcases List.exists_cons_of_ne_nil (splitOnChar_ne_nil sep (xs' ++ sep :: ys))
      with ⟨hd, tl, heq⟩
    rw [heq]
    have := ih h'
    rw [heq] at this
    simp only [List.headD_cons] at this ⊢
    rw [this]

theorem firstToken_append_overnight (s : String) (h : ' ' ∉ s.data) :
    firstToken (s ++ " (Overnight)") = s := by
  unfold firstToken
  have hdata : (s ++ " (Overnight)").data = s.data ++ ' ' :: ("(Overnight)" : String).data := by
    rw [String.data_append]
  rw [hdata, splitOnChar_head_append ' ' _ s.data h]

theorem overnight_label_not_early (r : Record) (hoc : overnightCondition r = true) :
    earlyShiftB (reportingShiftOf r) = false := by
  rcases (overnightCondition_iff r).mp hoc with ⟨-, n, hsome, hge⟩
  unfold reportingShiftOf
  rw [if_pos hoc]
  unfold earlyShiftB
  rw [firstToken_append_overnight _ (pyIntOpt_no_space _ _ hsome), hsome]
  simp only [decide_eq_false_iff_not, not_lt]
  have : LATE_SHIFT_START_HOUR * 100 = 2000 := by decide
  omega

/-- C3 counterexample: for the sorted labels ["2200 (Overnight)", "1400"]
the claim counts the reclassified overnight shift among the before-6-AM
shifts, giving split point 0 and hence two messages; the code parses the
numeric prefix 2200, which is not below 600, leaves the split point at -1,
and sends a single message. -/
theorem C3_counterexample :
    splitIndexOf ["2200 (Overnight)", "1400"] = -1 ∧
    (buildMessages "S" ["f0", "f1"] ["2200 (Overnight)", "1400"]).length = 1 := by
  decide

/-- C3 amended: scanning the sorted shift labels in order, the split point
is the index of the last label whose numeric prefix (up to the first space,
parsed as an integer) is strictly below 600; non-numeric labels are skipped
without resetting it; reclassified overnight labels carry a numeric prefix
of at least `LATE_SHIFT_START_HOUR * 100` and therefore NEVER count among
the before-6-AM shifts; if no label qualifies or the split point is the
last fragment a single message is sent, otherwise exactly two (summary +
fragments[0..split], then a continuation header + the rest). -/
theorem C3_split_rule (shifts frags : List String) (summaryText : String) :
    (splitIndexOf shifts = -1 ↔ ∀ s ∈ shifts, earlyShiftB s = false) ∧
    (∀ i : Nat, splitIndexOf shifts = (i : Int) ↔
      ((∃ s, shifts[i]? = some s ∧ earlyShiftB s = true) ∧
        ∀ s ∈ shifts.drop (i + 1), earlyShiftB s = false)) ∧
    (∀ r : Record, overnightCondition r = true →
      earlyShiftB (reportingShiftOf r) = false) ∧
    ((splitIndexOf shifts = -1 ∨ splitIndexOf shifts = (frags.length : Int) - 1) →
      buildMessages summaryText frags shifts = [summaryText ++ String.join frags]) ∧
    (∀ i : Nat, splitIndexOf shifts = (i : Int) → (i : Int) ≠ (frags.length : Int) - 1 →
      buildMessages summaryText frags shifts =
        [summaryText ++ String.join (frags.take (i + 1)),
         "📊 *Daily Idling Time Report (continued)*\n" ++
           String.join (frags.drop (i + 1))]) := by
  refine ⟨?_, ?_, overnight_label_not_early, ?_, ?_⟩
  · cases h : lastEarlyIdx shifts with
    | some j =>
      rw [splitIndexOf_of_some shifts j h]
      constructor
      · intro hh
        have : (0 : Int) ≤ (j : Int) := Int.natCast_nonneg j
        omega
      · intro hall
        have := (lastEarlyIdx_none_iff shifts).mpr hall
        rw [h] at this
        exact absurd this (by simp)
    | none =>
      rw [splitIndexOf_of_none shifts h]
      simp only [true_iff]
      exact (lastEarlyIdx_none_iff shifts).mp h
  · intro i
    cases h : lastEarlyIdx shifts with
    | some j =>
      rw [splitIndexOf_of_some shifts j h]
      rw [← lastEarlyIdx_some_iff shifts i, h]
      constructor
      · intro hh
        have : j = i := by exact_mod_cast hh
        rw [this]
      · intro hh
        have : j = i := by injection hh
        exact_mod_cast congrArg (fun n : Nat => (n : Int)) this
    | none =>
      rw [splitIndexOf_of_none shifts h]
      constructor
      · intro hh
        have : (0 : Int) ≤ (i : Int) := Int.natCast_nonneg i
        omega
      · intro hh
        have := (lastEarlyIdx_some_iff shifts i).mpr hh
        rw [h] at this
        exact absurd this (by simp)
  · intro h
    simp only [buildMessages]
    rw [if_pos h]
  · intro i hi hne
    simp only [buildMessages]
    rw [if_neg]
    · have h1 : ((splitIndexOf shifts) + 1).toNat = i + 1 := by rw [hi]; omega
      rw [h1]
    · rw [hi]
      rintro (hh | hh)
      · have : (0 : Int) ≤ (i : Int) := Int.natCast_nonneg i
        omega
      · exact hne hh

/-- C3 witness: labels ["0500", "1400"] with fragments ["a", "b"] split
after the first fragment into exactly two messages. -/
theorem C3_split_rule_witness :
    buildMessages "S" ["a", "b"] ["0500", "1400"] =
      ["S" ++ String.join (["a", "b"].take (0 + 1)),
       "📊 *Daily Idling Time Report (continued)*\n" ++
         String.join (["a", "b"].drop (0 + 1))] :=
  (C3_split_rule ["0500", "1400"] ["a", "b"] "S").2.2.2.2 0 (by decide) (by decide)

/-- C2 witness: the amended statement applied to the two-record run of the
counterexample. -/
theorem C2_batch_skip_witness :
    (classifyRun [⟨0, 1, "SITE-2030", "C", 1⟩, ⟨0, 3, "X9Z", "D", 1⟩]).map Prod.snd
      = [(⟨0, 1, "SITE-2030", "C", 1⟩ : Record), ⟨0, 3, "X9Z", "D", 1⟩].map
          (fun r => cleanShift r.shiftCode) :=
  C2_batch_skip _ ⟨⟨0, 3, "X9Z", "D", 1⟩, by decide, by decide⟩

/-! ### The lexicographic comparison and the shift sort (lines 155-163) -/

theorem lexLe_total (x : List Char) : ∀ y, lexLe x y = true ∨ lexLe y x = true := by
  induction x with
  | nil => intro y; exact Or.inl rfl
  | cons a as ih =>
    intro y
    cases y with
    | nil => exact Or.inr rfl
    | cons b bs =>
      unfold lexLe
      by_cases hab : a.toNat = b.toNat
      · rw [if_pos hab, if_pos hab.symm]
        exact ih bs
      · rw [if_neg hab, if_neg (fun hh => hab hh.symm)]
        rcases Nat.lt_or_ge a.toNat b.toNat with hlt | hge
        · exact Or.inl (by simpa using hlt)
        · have hgt : b.toNat < a.toNat := lt_of_le_of_ne hge (fun hh => hab hh.symm)
          exact Or.inr (by simpa using hgt)

theorem lexLe_trans (x : List Char) : ∀ y z, lexLe x y = true → lexLe y z = true →
    lexLe x z = true := by
  induction x with
  | nil => intro y z _ _; rfl
  | cons a as ih =>
    intro y z hxy hyz
    cases y with
    | nil => exact absurd hxy (by simp [lexLe])
    | cons b bs =>
      cases z with
      | nil => exact absurd hyz (by simp [lexLe])
      | cons c cs =>
        unfold lexLe at hxy hyz ⊢
        by_cases hab : a.toNat = b.toNat
        · rw [if_pos hab] at hxy
          by_cases hbc : b.toNat = c.toNat
          · rw [if_pos hbc] at hyz
            rw [if_pos (hab.trans hbc)]
            exact ih bs cs hxy hyz
          · rw [if_neg hbc] at hyz
            have hbclt : b.toNat < c.toNat := by simpa using hyz
            rw [if_neg (by omega)]
            simp only [decide_eq_true_iff]
            omega
        · rw [if_neg hab] at hxy
          have hablt : a.toNat < b.toNat := by simpa using hxy
          by_cases hbc : b.toNat = c.toNat
          · rw [if_neg (by omega)]
            simp only [decide_eq_true_iff]
            omega
          · rw [if_neg hbc] at hyz
            have hbclt : b.toNat < c.toNat := by simpa using hyz
            rw [if_neg (by omega)]
            simp only [decide_eq_true_iff]
            omega

theorem lexLe_one_zero (as bs : List Char) :
    lexLe ('1' :: as) ('0' :: bs) = false := by
  unfold lexLe
  rw [if_neg (by decide)]
  rfl

theorem keyLe_overnight_first (a b : String) (hb : pyContains "(Overnight)" b = true)
    (hke : keyLe a b) : pyContains "(Overnight)" a = true := by
  cases hpc : pyContains "(Overnight)" a with
  | true => rfl
  | false =>
    exfalso
    unfold keyLe shift_sort_key at hke
    rw [hpc, hb] at hke
    simp only [Bool.false_eq_true, if_false, if_true] at hke
    have hke2 : lexLe ('1' :: '_' :: a.data) ('0' :: '_' :: b.data) = true := by
      have hda : ("1_" ++ a).data = '1' :: '_' :: a.data := by
        rw [String.data_append]; rfl
      have hdb : ("0_" ++ b).data = '0' :: '_' :: b.data := by
        rw [String.data_append]; rfl
      rw [hda, hdb] at hke
      exact hke
    rw [lexLe_one_zero] at hke2
    exact absurd hke2 (by simp)

/-- C7: the reporting shifts appear in the report sorted with every
"(Overnight)" shift before every same-day shift, the whole list (and hence
each group) ordered lexicographically by its "0_"- or "1_"-prefixed
`shift_sort_key` label. -/
theorem C7_shift_order (classified : List (Record × String)) :
    List.Sorted keyLe (sortedReportShifts classified) ∧
    List.Pairwise (fun a b => pyContains "(Overnight)" b = true →
      pyContains "(Overnight)" a = true) (sortedReportShifts classified) := by
  have hsorted : List.Sorted keyLe (sortedReportShifts classified) := by
    unfold sortedReportShifts
    exact @List.sorted_insertionSort String keyLe _
      ⟨fun a b => lexLe_total _ _⟩
      ⟨fun a b c hab hbc => lexLe_trans _ _ _ hab hbc⟩ _
  exact ⟨hsorted, hsorted.imp (fun hke hb => keyLe_overnight_first _ _ hb hke)⟩

/-- C7 witness: the theorem applied to a concrete two-shift day. -/
theorem C7_shift_order_witness :
    List.Sorted keyLe (sortedReportShifts
      [((⟨0, 2, "2200", "E", 1⟩ : Record), "2200 (Overnight)"),
       ((⟨0, 6, "0600", "F", 1⟩ : Record), "0600")]) ∧
    List.Pairwise (fun a b => pyContains "(Overnight)" b = true →
      pyContains "(Overnight)" a = true)
      (sortedReportShifts
        [((⟨0, 2, "2200", "E", 1⟩ : Record), "2200 (Overnight)"),
         ((⟨0, 6, "0600", "F", 1⟩ : Record), "0600")]) :=
  C7_shift_order _

/-! ### Grouping and counting (lines 142, 155, 205-217) -/

theorem mem_uniqueFirstAux {α : Type _} [DecidableEq α] (l : List α) :
    ∀ (seen : List α) (x : α), x ∈ uniqueFirstAux seen l → x ∈ l ∧ x ∉ seen := by
  induction l with
  | nil => intro seen x hx; simp [uniqueFirstAux] at hx
  | cons a t ih =>
    intro seen x hx
    unfold uniqueFirstAux at hx
    by_cases ha : a ∈ seen
    · rw [if_pos ha] at hx
      rcases ih seen x hx with ⟨h1, h2⟩
      exact ⟨List.mem_cons_of_mem a h1, h2⟩
    · rw [if_neg ha] at hx
      rcases List.mem_cons.mp hx with hxa | hxr
      · rw [hxa]; exact ⟨List.mem_cons_self a t, ha⟩
      · rcases ih (a :: seen) x hxr with ⟨h1, h2⟩
        exact ⟨List.mem_cons_of_mem a h1, fun hxs => h2 (List.mem_cons_of_mem a hxs)⟩

theorem countP_seen_split {α : Type _} [DecidableEq α] (a : α) (seen : List α)
    (ha : a ∉ seen) (l : List α) :
    l.countP (fun x => x ∉ seen) =
      l.countP (fun x => x = a) + l.countP (fun x => x ∉ a :: seen) := by
  induction l with
  | nil => rfl
  | cons y l' ih =>
    rw [List.countP_cons, List.countP_cons, List.countP_cons]
    by_cases hya : y = a
    · subst hya
      rw [if_pos (by simpa using ha), if_pos (by simp), if_neg (by simp)]
      omega
    · by_cases hys : y ∈ seen
      · rw [if_neg (by simpa using hys), if_neg (by simpa using hya),
          if_neg (by simp [List.mem_cons, hys])]
        omega
      · rw [if_pos (by simpa using hys), if_neg (by simpa using hya),
          if_pos (by simp [List.mem_cons, hya, hys])]
        omega

theorem uniqueFirstAux_sum_countP {α : Type _} [DecidableEq α] (l : List α) :
    ∀ seen : List α,
      ((uniqueFirstAux seen l).map (fun k => l.countP (fun x => x = k))).sum
        = l.countP (fun x => x ∉ seen) := by
  induction l with
  | nil => intro seen; rfl
  | cons a l' ih =>
    intro seen
    unfold uniqueFirstAux
    by_cases ha : a ∈ seen
    · rw [if_pos ha]
      have hmap : (uniqueFirstAux seen l').map (fun k => (a :: l').countP (fun x => x = k))
          = (uniqueFirstAux seen l').map (fun k => l'.countP (fun x => x = k)) := by
        apply List.map_congr_left
        intro k hk
        have hkne : ¬ a = k := fun hh => (mem_uniqueFirstAux l' seen k hk).2 (hh ▸ ha)
        rw [List.countP_cons, if_neg (by simpa using hkne)]
        omega
      rw [hmap, ih seen, List.countP_cons, if_neg (by simpa using ha)]
      omega
    · rw [if_neg ha]
      simp only [List.map_cons, List.sum_cons]
      have hmap : (uniqueFirstAux (a :: seen) l').map
            (fun k => (a :: l').countP (fun x => x = k))
          = (uniqueFirstAux (a :: seen) l').map (fun k => l'.countP (fun x => x = k)) := by
        apply List.map_congr_left
        intro k hk
        have hk2 := (mem_uniqueFirstAux l' (a :: seen) k hk).2
        have hkne : ¬ a = k := fun hh => hk2 (hh ▸ List.mem_cons_self a seen)
        rw [List.countP_cons, if_neg (by simpa using hkne)]
        omega
      rw [hmap, ih (a :: seen)]
      rw [List.countP_cons, if_pos (by simp), List.countP_cons,
        if_pos (by simpa using ha), countP_seen_split a seen ha l']
      omega

theorem uniqueFirst_sum_countP {α : Type _} [DecidableEq α] (l : List α) :
    ((uniqueFirst l).map (fun k => l.countP (fun x => x = k))).sum = l.length := by
  unfold uniqueFirst
  rw [uniqueFirstAux_sum_countP l []]
  have htrue : (fun x : α => decide (x ∉ ([] : List α))) = fun _ => true := by
    funext x; simp
  rw [htrue, List.countP_true]

theorem countP_driver (recs : List Record) (d : String) :
    (recs.map Record.driver).countP (fun x => x = d)
      = (recs.filter (fun r => r.driver = d)).length := by
  rw [List.countP_map, ← List.countP_eq_length_filter]
  rfl

theorem sum_moveCount (classified : List (Record × String)) (total : Nat) (lbl : String) :
    ((shiftRows classified total lbl).map DriverRow.moveCount).sum
      = (shiftRecords classified lbl).length := by
  unfold shiftRows
  have hp1 := (List.perm_insertionSort rowLe
      ((List.insertionSort strLe
        (uniqueFirst ((shiftRecords classified lbl).map Record.driver))).map
          (driverRowOf (shiftRecords classified lbl) total))).map DriverRow.moveCount
  rw [hp1.sum_eq, List.map_map]
  have hp2 := (List.perm_insertionSort strLe
      (uniqueFirst ((shiftRecords classified lbl).map Record.driver))).map
        (DriverRow.moveCount ∘ driverRowOf (shiftRecords classified lbl) total)
  rw [hp2.sum_eq]
  have hmap : (uniqueFirst ((shiftRecords classified lbl).map Record.driver)).map
        (DriverRow.moveCount ∘ driverRowOf (shiftRecords classified lbl) total)
      = (uniqueFirst ((shiftRecords classified lbl).map Record.driver)).map
          (fun k => ((shiftRecords classified lbl).map Record.driver).countP
            (fun x => x = k)) := by
    apply List.map_congr_left
    intro d _
    show ((shiftRecords classified lbl).filter (fun r => r.driver = d)).length = _
    rw [countP_driver]
  rw [hmap, uniqueFirst_sum_countP, List.length_map]

theorem classifyRun_length (rs : List Record) :
    (classifyRun rs).length = rs.length := by
  unfold classifyRun
  split <;> rw [List.length_map]

theorem countP_label (classified : List (Record × String)) (lbl : String) :
    (classified.map Prod.snd).countP (fun x => x = lbl)
      = (shiftRecords classified lbl).length := by
  unfold shiftRecords
  rw [List.length_map, List.countP_map, ← List.countP_eq_length_filter]
  rfl

theorem sum_shift_lengths (classified : List (Record × String)) :
    ((sortedReportShifts classified).map
        (fun lbl => (shiftRecords classified lbl).length)).sum
      = classified.length := by
  unfold sortedReportShifts
  have hp := (List.perm_insertionSort keyLe (uniqueFirst (classified.map Prod.snd))).map
      (fun lbl => (shiftRecords classified lbl).length)
  rw [hp.sum_eq]
  have hmap : (uniqueFirst (classified.map Prod.snd)).map
        (fun lbl => (shiftRecords classified lbl).length)
      = (uniqueFirst (classified.map Prod.snd)).map
          (fun k => (classified.map Prod.snd).countP (fun x => x = k)) := by
    apply List.map_congr_left
    intro lbl _
    rw [countP_label]
  rw [hmap, uniqueFirst_sum_countP, List.length_map]

/-- C8: within each reporting shift the per-driver move counts sum to that
shift's record count, and over all reporting shifts they sum to the number
of matched records (`total_daily_moves`). -/
theorem C8_move_count_invariant (allRecords : List Record) (targetDay : Int)
    (total : Nat) :
    (∀ lbl : String,
      ((shiftRows (classifyRun (matchedRecords allRecords targetDay)) total lbl).map
          DriverRow.moveCount).sum
        = (shiftRecords (classifyRun (matchedRecords allRecords targetDay)) lbl).length) ∧
    ((sortedReportShifts (classifyRun (matchedRecords allRecords targetDay))).map
        (fun lbl =>
          ((shiftRows (classifyRun (matchedRecords allRecords targetDay)) total lbl).map
            DriverRow.moveCount).sum)).sum
      = (matchedRecords allRecords targetDay).length := by
  refine ⟨fun lbl => sum_moveCount _ total lbl, ?_⟩
  have hmap : (sortedReportShifts (classifyRun (matchedRecords allRecords targetDay))).map
        (fun lbl =>
          ((shiftRows (classifyRun (matchedRecords allRecords targetDay)) total lbl).map
            DriverRow.moveCount).sum)
      = (sortedReportShifts (classifyRun (matchedRecords allRecords targetDay))).map
          (fun lbl =>
            (shiftRecords (classifyRun (matchedRecords allRecords targetDay)) lbl).length) :=
    List.map_congr_left (fun lbl _ => sum_moveCount _ total lbl)
  rw [hmap, sum_shift_lengths, classifyRun_length]

/-- C8 witness: the whole-day invariant at the concrete fixture day. -/
theorem C8_move_count_invariant_witness :
    ((sortedReportShifts (classifyRun (matchedRecords fixtureDay 0))).map
        (fun lbl => ((shiftRows (classifyRun (matchedRecords fixtureDay 0)) 2 lbl).map
          DriverRow.moveCount).sum)).sum
      = (matchedRecords fixtureDay 0).length :=
  (C8_move_count_invariant fixtureDay 0 2).2

/-- C6: for every reporting shift, each driver row has
% of moves = move count / total_daily_moves (the count of all matched
records) and idle impact = (average idle time - benchmark) * move count,
where the move count and average come from the driver's own records of the
shift, and the rows are ordered ascending by idle impact. -/
theorem C6_aggregation (allRecords : List Record) (targetDay : Int) (lbl : String) :
    List.Sorted rowLe
      (shiftRows (classifyRun (matchedRecords allRecords targetDay))
        (matchedRecords allRecords targetDay).length lbl) ∧
    ∀ row ∈ shiftRows (classifyRun (matchedRecords allRecords targetDay))
        (matchedRecords allRecords targetDay).length lbl,
      row.moveCount
          = ((shiftRecords (classifyRun (matchedRecords allRecords targetDay)) lbl).filter
              (fun rec => rec.driver = row.driver)).length ∧
      row.avgIdleTime
          = (((shiftRecords (classifyRun (matchedRecords allRecords targetDay)) lbl).filter
              (fun rec => rec.driver = row.driver)).map Record.idleTime).sum
            / (row.moveCount : ℚ) ∧
      row.pctMoves = (row.moveCount : ℚ) / ((matchedRecords allRecords targetDay).length : ℚ) ∧
      row.idleImpact = (row.avgIdleTime - BENCHMARK_IDLE_TIME) * (row.moveCount : ℚ) := by
  constructor
  · unfold shiftRows
    exact @List.sorted_insertionSort DriverRow rowLe _
      ⟨fun a b => le_total a.idleImpact b.idleImpact⟩
      ⟨fun a b c hab hbc => le_trans hab hbc⟩ _
  · intro row hrow
    unfold shiftRows at hrow
    have hrow2 := (List.perm_insertionSort rowLe _).mem_iff.mp hrow
    rcases List.mem_map.mp hrow2 with ⟨d, -, hd⟩
    subst hd
    exact ⟨rfl, rfl, rfl, rfl⟩

/-- C6 witness: the formulas of driver A's row in the fixture day. -/
theorem C6_aggregation_witness :
    fixtureRowA.moveCount
        = ((shiftRecords (classifyRun (matchedRecords fixtureDay 0)) "0600").filter
            (fun rec => rec.driver = fixtureRowA.driver)).length ∧
    fixtureRowA.avgIdleTime
        = (((shiftRecords (classifyRun (matchedRecords fixtureDay 0)) "0600").filter
            (fun rec => rec.driver = fixtureRowA.driver)).map Record.idleTime).sum
          / (fixtureRowA.moveCount : ℚ) ∧
    fixtureRowA.pctMoves
        = (fixtureRowA.moveCount : ℚ) / ((matchedRecords fixtureDay 0).length : ℚ) ∧
    fixtureRowA.idleImpact
        = (fixtureRowA.avgIdleTime - BENCHMARK_IDLE_TIME) * (fixtureRowA.moveCount : ℚ) :=
  (C6_aggregation fixtureDay 0 "0600").2 fixtureRowA (by decide)

/-! ### No shift table is ever empty (lines 228-233) -/

theorem uniqueFirst_cons_ne_nil {α : Type _} [DecidableEq α] (a : α) (t : List α) :
    uniqueFirst (a :: t) ≠ [] := by
  unfold uniqueFirst uniqueFirstAux
  rw [if_neg (List.not_mem_nil a)]
  simp

theorem shiftRows_ne_nil (classified : List (Record × String)) (total : Nat)
    (lbl : String) (hlbl : lbl ∈ sortedReportShifts classified) :
    shiftRows classified total lbl ≠ [] := by
  have h1 : lbl ∈ uniqueFirst (classified.map Prod.snd) :=
    (List.perm_insertionSort keyLe _).mem_iff.mp hlbl
  have h2 : lbl ∈ classified.map Prod.snd :=
    (mem_uniqueFirstAux (classified.map Prod.snd) [] lbl h1).1
  rcases List.mem_map.mp h2 with ⟨p, hp, hpl⟩
  have hrec : p.1 ∈ shiftRecords classified lbl := by
    unfold shiftRecords
    exact List.mem_map_of_mem Prod.fst (List.mem_filter.mpr ⟨hp, by simp [hpl]⟩)
  intro hnil
  unfold shiftRows at hnil
  have hlen := congrArg List.length hnil
  rw [(List.perm_insertionSort rowLe _).length_eq, List.length_map,
    (List.perm_insertionSort strLe _).length_eq] at hlen
  simp only [List.length_nil] at hlen
  have hemp := List.length_eq_zero.mp hlen
  rcases List.exists_cons_of_ne_nil (List.ne_nil_of_mem hrec) with ⟨q, qs, hq⟩
  rw [hq] at hemp
  simp only [List.map_cons] at hemp
  exact uniqueFirst_cons_ne_nil q.driver (qs.map Record.driver) hemp

theorem shiftFragment_table (classified : List (Record × String)) (total : Nat)
    (lbl : String) (hlbl : lbl ∈ sortedReportShifts classified) :
    ∃ rows, shiftFragment classified total lbl = ShiftFragment.table lbl rows ∧
      rows ≠ [] := by
  refine ⟨shiftRows classified total lbl, ?_,
    shiftRows_ne_nil classified total lbl hlbl⟩
  simp only [shiftFragment]
  rw [if_neg]
  intro hempty
  exact shiftRows_ne_nil classified total lbl hlbl (List.isEmpty_iff.mp hempty)

/-- C10: in any run that produces a report, every emitted shift fragment is
a driver table with at least one row: the reporting shifts are exactly the
distinct labels of the day's matched records, so the zero-driver branch
rendering "No employee data to analyze for this shift." is never taken. -/
theorem C10_no_empty_shift_table (allRecords : List Record) (targetDay : Int)
    (targetDayStr : String) (site : ℚ) (total : Nat) (shifts : List String)
    (frags : List ShiftFragment)
    (h : analyze_day_performance allRecords targetDay targetDayStr =
      RunOutput.report site total shifts frags) :
    ∀ frag ∈ frags, ∃ lbl rows, frag = ShiftFragment.table lbl rows ∧ rows ≠ [] := by
  simp only [analyze_day_performance] at h
  by_cases hact : (matchedRecords allRecords targetDay).isEmpty = true
  · rw [if_pos hact] at h
    exact absurd h (by simp)
  · rw [if_neg hact] at h
    rw [RunOutput.report.injEq] at h
    rcases h with ⟨-, htot, hshifts, hfrags⟩
    intro frag hfrag
    rw [← hfrags] at hfrag
    rcases List.mem_map.mp hfrag with ⟨lbl, hlbl, hfl⟩
    rcases shiftFragment_table (classifyRun (matchedRecords allRecords targetDay))
      (matchedRecords allRecords targetDay).length lbl hlbl with ⟨rows, hfr, hne⟩
    exact ⟨lbl, rows, by rw [← hfl, hfr], hne⟩

/-- C10 witness: the fixture day's report has exactly one fragment, the
"0600" table with both driver rows. -/
theorem C10_no_empty_shift_table_witness :
    ∃ lbl rows, ShiftFragment.table "0600" [fixtureRowA, fixtureRowB]
        = ShiftFragment.table lbl rows ∧ rows ≠ [] :=
  C10_no_empty_shift_table fixtureDay 0 "2026-10-09" 1 2 ["0600"]
    [ShiftFragment.table "0600" [fixtureRowA, fixtureRowB]] (by decide)
    (ShiftFragment.table "0600" [fixtureRowA, fixtureRowB]) (by decide)

end Report
